import Mathlib

/-!
# Verification of the Bitcoin balance-checker core (`src/btc_checker.py`)

Shallow embedding of the balance-resolution engine of `BTCKeyChecker`:
the provider strategy (`check_balance` in auto / rotate modes), key
extraction (`extract_and_validate_private_key`), the scan loop
(`process_keys`), and the result sink (`init_output_file`,
`save_result_realtime`).

External effects (HTTP provider calls, the elliptic-curve library
`privkey_to_pubkey`, the file system, wall-clock timestamps, the injected
progress callback) are modelled as explicit oracles / state threaded
through the definitions; a Python function that may raise is modelled by
an explicit outcome type.  Balances (Python floats holding BTC amounts)
are modelled as rationals.
-/

set_option maxRecDepth 4000

namespace BtcChecker

/-- Outcome of a single provider invocation at a fixed address:
the underlying `_check_balance_*` call may raise (transport / parse
error), may return `None` (absent), or may return a balance. -/
inductive ProvResult where
  | raises
  | absent
  | value (b : ℚ)
deriving DecidableEq, Repr

/-- `true` exactly when the provider call returns a non-`None` balance
(`balance is not None` in the source). -/
def ProvResult.isHit : ProvResult → Bool
  | .value _ => true
  | _ => false

/-- The provider registration order of `BTCKeyChecker.__init__`
(`self.api_functions`, an insertion-ordered dict, lines 87-100). -/
def apiNames : List String :=
  ["blockchain", "blockcypher", "blockstream", "mempool", "blockchair",
   "bitaps", "btccom", "blockonomics", "coinbase", "cryptoid",
   "sochain", "btcexplorer"]

/-- `check_balance`, auto mode (lines 179-190): walk the registered
providers in order; a raising provider is caught and skipped, a `None`
result falls through, the first non-`None` balance is returned with the
provider's name; if the loop ends, `(None, "unknown")` is returned.
Besides the returned pair we record the names of the providers actually
invoked, in invocation order.  The providers are given as the
`(name, outcome-at-this-address)` items of `self.api_functions`. -/
def check_balance_auto : List (String × ProvResult) → (Option ℚ × String) × List String
  | [] => ((none, "unknown"), [])
  | (name, r) :: rest =>
    match r with
    | .value b => ((some b, name), [name])
    | _ =>
      let t := check_balance_auto rest
      (t.1, name :: t.2)

/-- `check_balance`, rotate mode (lines 193-205): pick the provider at
`self.current_api_index`, advance the index modulo the provider count,
then call it; a raise is caught and yields `(None, "unknown")`, otherwise
the call's result is returned with the provider's name (even when the
balance is `None`).  The first component of the output also records which
provider was queried. -/
def check_balance_rotate (o : ProvResult) (current_api_index : ℕ) :
    (String × (Option ℚ × String)) × ℕ :=
  let api_name := apiNames.getD current_api_index ""
  let next := (current_api_index + 1) % apiNames.length
  match o with
  | .raises => ((api_name, (none, "unknown")), next)
  | .absent => ((api_name, (none, api_name)), next)
  | .value b => ((api_name, (some b, api_name)), next)

/-- A run of consecutive `check_balance` calls in rotate mode: the k-th
element of `os` is the outcome of whatever provider the k-th call hits.
Returns the per-call `(queried provider, returned pair)` trace and the
final cursor. -/
def rotate_run (cursor : ℕ) : List ProvResult →
    List (String × (Option ℚ × String)) × ℕ
  | [] => ([], cursor)
  | o :: os =>
    let s := check_balance_rotate o cursor
    let t := rotate_run s.2 os
    (s.1 :: t.1, t.2)

/-- Witness for C2: a run of 13 calls starting at cursor 3, with a mix of
hits, absences and raises. -/
def rotateWitnessOutcomes : List ProvResult :=
  [.raises, .absent, .value 1, .raises, .absent, .value 0, .raises,
   .absent, .value 2, .raises, .absent, .value 3, .raises]

/-! ## Key extraction (`extract_and_validate_private_key`, lines 107-151)

The two regex patterns of the source are
`wif_pattern = [5KL][1-9A-HJ-NP-Za-km-z]{50,51}` and
`hex_pattern = [0-9a-fA-F]{64}`.  `re.findall` scans left to right,
attempts a (greedy) match at each position, emits the match and resumes
immediately after it; on failure it advances one character.  We model
this directly on `List Char`, with a fuel argument (the line length) in
place of the engine's loop.  The external `privkey_to_pubkey` validator
is an oracle `derives : List Char → Bool` (`true` = derivation succeeds,
`false` = it raises). -/
/-- The WIF body character class `[1-9A-HJ-NP-Za-km-z]`. -/
def isBase58 (c : Char) : Bool :=
  ('1' ≤ c && c ≤ '9') || ('A' ≤ c && c ≤ 'H') || ('J' ≤ c && c ≤ 'N') ||
  ('P' ≤ c && c ≤ 'Z') || ('a' ≤ c && c ≤ 'k') || ('m' ≤ c && c ≤ 'z')

/-- The WIF leading character class `[5KL]`. -/
def isWifStart (c : Char) : Bool := c == '5' || c == 'K' || c == 'L'

/-- The hex character class `[0-9a-fA-F]`. -/
def isHexChar (c : Char) : Bool :=
  ('0' ≤ c && c ≤ '9') || ('a' ≤ c && c ≤ 'f') || ('A' ≤ c && c ≤ 'F')

/-- One attempt of the regex engine to match the WIF pattern at the
current position; greedy, so 51 body characters are preferred over 50.
Returns the matched text and the remainder of the line after it. -/
def wifMatchAt : List Char → Option (List Char × List Char)
  | [] => none
  | c :: rest =>
    if isWifStart c then
      if (rest.take 51).length == 51 && (rest.take 51).all isBase58 then
        some (c :: rest.take 51, rest.drop 51)
      else if (rest.take 50).length == 50 && (rest.take 50).all isBase58 then
        some (c :: rest.take 50, rest.drop 50)
      else none
    else none

/-- One attempt of the regex engine to match the 64-hex-digit pattern at
the current position. -/
def hexMatchAt : List Char → Option (List Char × List Char)
  | [] => none
  | c :: rest =>
    if isHexChar c && (rest.take 63).length == 63 && (rest.take 63).all isHexChar then
      some (c :: rest.take 63, rest.drop 63)
    else none

/-- The `re.findall` scan: try a match at the current position; on
success emit it and continue after it, otherwise advance one character.
`fuel` bounds the number of scan steps; every step consumes at least one
character, so `fuel = cs.length` runs the scan to completion. -/
def scanRe (matchAt : List Char → Option (List Char × List Char)) :
    ℕ → List Char → List (List Char)
  | 0, _ => []
  | _, [] => []
  | fuel + 1, c :: rest =>
    match matchAt (c :: rest) with
    | some (m, rest') => m :: scanRe matchAt fuel rest'
    | none => scanRe matchAt fuel rest

/-- `re.findall(wif_pattern, line)`. -/
def findall_wif (cs : List Char) : List (List Char) := scanRe wifMatchAt cs.length cs

/-- `re.findall(hex_pattern, line)`. -/
def findall_hex (cs : List Char) : List (List Char) := scanRe hexMatchAt cs.length cs

/-- The Python `str.strip` whitespace characters. -/
def isPySpace (c : Char) : Bool :=
  c == ' ' || c == '\t' || c == '\n' || c == '\r' || c == '\x0b' || c == '\x0c'

/-- Python `str.strip()`. -/
def pyStrip (cs : List Char) : List Char :=
  ((cs.dropWhile isPySpace).reverse.dropWhile isPySpace).reverse

/-- `extract_and_validate_private_key` (lines 107-151): try every WIF
`findall` candidate in order, returning the first whose derivation
succeeds; then every hex candidate; then the stripped whole line; else
`(False, "")`.  A candidate whose derivation raises is skipped
(`except Exception: continue`), so the function itself never raises. -/
def extract_and_validate_private_key (derives : List Char → Bool)
    (line : List Char) : Bool × List Char :=
  match (findall_wif line).find? derives with
  | some m => (true, m)
  | none =>
    match (findall_hex line).find? derives with
    | some m => (true, m)
    | none =>
      let cleaned := pyStrip line
      if derives cleaned then (true, cleaned) else (false, [])

/-- Spec-words predicate (for comparison with the source's behaviour):
a string that *as a whole* matches the WIF pattern
`[5KL][1-9A-HJ-NP-Za-km-z]{50,51}`. -/
def matchesWifPattern : List Char → Bool
  | [] => false
  | c :: rest =>
    isWifStart c && (rest.length == 50 || rest.length == 51) && rest.all isBase58

/-- Spec-words predicate: a string that as a whole matches the hex
pattern `[0-9a-fA-F]{64}`. -/
def matchesHexPattern (cs : List Char) : Bool :=
  cs.length == 64 && cs.all isHexChar

/-- A syntactically valid WIF-pattern key: `5` followed by 50 base58
characters (51 characters in total). -/
def wifKeyEx : List Char := '5' :: List.replicate 50 'a'

/-- A line embedding `wifKeyEx` right after a single `K`.  The greedy
scan matches the 52-character run starting at the `K` and consumes the
whole line, so the embedded key at offset 1 is never tried. -/
def lineEx : List Char := 'K' :: wifKeyEx

/-- Derivation oracle under which exactly `wifKeyEx` is a valid private
key (models a `privkey_to_pubkey` that accepts this one WIF string and
raises on everything else, e.g. on checksum failure). -/
def derivesEx (cs : List Char) : Bool := cs == wifKeyEx

/-! ## The scan loop (`process_keys`, lines 536-647)

`process_keys` reads the input file, slices the configured line range and
iterates.  Its effectful collaborators are oracles in `ScanCfg`:
`derives` models `privkey_to_pubkey` inside the extractor; `deriveAddr`
models `get_address_from_private_key` (`none` = it raises);
`checkBal k` models the result of the k-th `self.check_balance` call
(that method catches provider exceptions internally and returns a pair,
see C1/C2); `cbRaises k` tells whether the k-th invocation of the
injected `progress_callback` raises; `saveOk k` tells whether the k-th
`save_result_realtime` call succeeds.  Observable actions are recorded as
`ScanEv` events; `time.sleep` is the event `slept`.  The single outer
`try` of the source (lines 550-647) means that an uncaught in-loop
exception stops the iteration and returns the accumulated results — in
the model, an `abort` step ends the loop with `aborted = true`. -/
/-- One entry of the in-memory `results` list of `process_keys`. -/
structure FoundRecord where
  private_key : List Char
  address : List Char
  balance : ℚ
  api_used : String
deriving DecidableEq, Repr

/-- Observable events of a `process_keys` run.  `progressCb` is the
periodic callback of lines 575-577 (carrying `i+1`, `total_keys` and
`len(results)`); `hitCb` is the found-key callback of lines 627-638;
`saved` is a `save_result_realtime` call and its boolean return;
`slept` is the `time.sleep(self.delay)` of line 641. -/
inductive ScanEv where
  | progressCb (processed total found : ℕ)
  | hitCb (processed total found : ℕ)
  | saved (ok : Bool)
  | slept
deriving DecidableEq, Repr

/-- `true` for a periodic progress-callback event. -/
def ScanEv.isProgress : ScanEv → Bool
  | .progressCb .. => true
  | _ => false

/-- `true` for a found-key callback event. -/
def ScanEv.isHitCb : ScanEv → Bool
  | .hitCb .. => true
  | _ => false

/-- Forget the success flag of save events (used to compare runs that
differ only in persistence outcomes). -/
def ScanEv.scrubSave : ScanEv → ScanEv
  | .saved _ => .saved true
  | e => e

/-- Configuration and effect oracles of one `process_keys` run. -/
structure ScanCfg where
  startLine : ℕ
  endLine : Option ℕ
  hasCallback : Bool
  cbRaises : ℕ → Bool
  derives : List Char → Bool
  deriveAddr : List Char → Option (List Char)
  checkBal : ℕ → Option ℚ × String
  saveOk : ℕ → Bool

/-- Mutable state threaded through the loop: the accumulated results and
the number of callback / balance-check / save calls made so far (used to
index the corresponding oracles). -/
structure LoopSt where
  results : List FoundRecord
  cbIdx : ℕ
  balIdx : ℕ
  saveIdx : ℕ
deriving DecidableEq, Repr

/-- Outcome of one loop iteration: `ok` continues with the next line,
`abort` models an uncaught exception escaping the loop body into the
outer `except` of line 645. -/
inductive StepOut where
  | ok (st : LoopSt) (evs : List ScanEv)
  | abort (st : LoopSt) (evs : List ScanEv)
deriving DecidableEq, Repr

/-- The state carried out of a step. -/
def StepOut.st : StepOut → LoopSt
  | .ok st _ => st
  | .abort st _ => st

/-- The events emitted by a step. -/
def StepOut.evs : StepOut → List ScanEv
  | .ok _ evs => evs
  | .abort _ evs => evs

/-- Whether the step aborted the loop. -/
def StepOut.isAbort : StepOut → Bool
  | .ok _ _ => false
  | .abort _ _ => true

/-- The body of the `for i, line in enumerate(lines_to_process)` loop
(lines 563-641), for line index `i`:
skip blank/comment lines; fire the periodic progress callback when
`(i+1) % 10 == 0 or i+1 == total` (a raising callback aborts);
extract the key (miss ⇒ `continue`); derive the address (a raise aborts);
check the balance (a `None` balance ⇒ `continue` — skipping the sleep);
on a positive balance save, append to `results` and fire the found-key
callback; finally `time.sleep(self.delay)`. -/
def processKeyBody (cfg : ScanCfg) (total i : ℕ) (pk : List Char)
    (st1 : LoopSt) (evs1 : List ScanEv) : StepOut :=
  match extract_and_validate_private_key cfg.derives pk with
  | (false, _) => .ok st1 evs1
  | (true, key) =>
    match cfg.deriveAddr key with
    | none => .abort st1 evs1
    | some addr =>
      let bal := cfg.checkBal st1.balIdx
      let st2 := { st1 with balIdx := st1.balIdx + 1 }
      match bal.1 with
      | none => .ok st2 evs1
      | some b =>
        if 0 < b then
          let savedOk := cfg.saveOk st2.saveIdx
          let st3 := { st2 with
            saveIdx := st2.saveIdx + 1
            results := st2.results ++ [⟨key, addr, b, bal.2⟩] }
          let evs2 := evs1 ++ [ScanEv.saved savedOk]
          if cfg.hasCallback then
            if cfg.cbRaises st3.cbIdx then .abort st3 evs2
            else .ok { st3 with cbIdx := st3.cbIdx + 1 }
              (evs2 ++ [ScanEv.hitCb (i + 1) total st3.results.length,
                        ScanEv.slept])
          else .ok st3 (evs2 ++ [ScanEv.slept])
        else .ok st2 (evs1 ++ [ScanEv.slept])

def processLineStep (cfg : ScanCfg) (total i : ℕ) (line : List Char)
    (st : LoopSt) : StepOut :=
  let pk := pyStrip line
  if pk.isEmpty || (pk.head? == some '#') then .ok st []
  else
    let triggers := (i + 1) % 10 == 0 || (i + 1) == total
    if triggers && cfg.hasCallback && cfg.cbRaises st.cbIdx then .abort st []
    else if triggers && cfg.hasCallback then
      processKeyBody cfg total i pk { st with cbIdx := st.cbIdx + 1 }
        [ScanEv.progressCb (i + 1) total st.results.length]
    else processKeyBody cfg total i pk st []

/-- The loop over the sliced lines, starting at line index `i`.  Returns
the final state, the event trace, whether the run aborted, and how many
iterations completed normally. -/
def scanLoop (cfg : ScanCfg) (total : ℕ) :
    List (List Char) → ℕ → LoopSt → LoopSt × List ScanEv × Bool × ℕ
  | [], _, st => (st, [], false, 0)
  | line :: rest, i, st =>
    match processLineStep cfg total i line st with
    | .ok st' evs =>
      let t := scanLoop cfg total rest (i + 1) st'
      (t.1, evs ++ t.2.1, t.2.2.1, t.2.2.2 + 1)
    | .abort st' evs => (st', evs, true, 0)

/-- Result of a whole `process_keys` run. -/
structure ScanOut where
  results : List FoundRecord
  events : List ScanEv
  aborted : Bool
  done : ℕ
deriving DecidableEq, Repr

/-- `process_keys` (lines 536-647).  `fileLines = none` models a missing
input file (line 546: log an error and return the empty result list);
otherwise the configured range `lines[start_line:end_line]` is processed
(with `end_line = len(lines)` when unset, line 557). -/
def process_keys (cfg : ScanCfg) (fileLines : Option (List (List Char))) :
    ScanOut :=
  match fileLines with
  | none => ⟨[], [], false, 0⟩
  | some lines =>
    let e := cfg.endLine.getD lines.length
    let lines_to_process := (lines.take e).drop cfg.startLine
    let t := scanLoop cfg lines_to_process.length lines_to_process 0 ⟨[], 0, 0, 0⟩
    ⟨t.1.results, t.2.1, t.2.2.1, t.2.2.2⟩

/-- A configuration whose injected progress callback always raises; the
lines themselves contain no valid key. -/
def cfgC4 : ScanCfg :=
  { startLine := 0, endLine := none, hasCallback := true,
    cbRaises := fun _ => true, derives := fun _ => false,
    deriveAddr := fun _ => none, checkBal := fun _ => (none, "unknown"),
    saveOk := fun _ => true }

def linesC4 : List (List Char) := List.replicate 11 ['x']

/-- A benign configuration: no callback, no valid keys. -/
def cfgC5 : ScanCfg :=
  { startLine := 0, endLine := none, hasCallback := false,
    cbRaises := fun _ => false, derives := fun _ => false,
    deriveAddr := fun _ => none, checkBal := fun _ => (none, "unknown"),
    saveOk := fun _ => true }

/-- A configuration whose start line lies beyond the end of file. -/
def cfgC10 : ScanCfg := { cfgC5 with startLine := 5 }

/-- A configuration that hits: every string derives, the address equals
the key, every balance check returns 1 BTC from "blockchain". -/
def cfgW5 : ScanCfg :=
  { startLine := 0, endLine := none, hasCallback := false,
    cbRaises := fun _ => false, derives := fun _ => true,
    deriveAddr := fun s => some s, checkBal := fun _ => (some 1, "blockchain"),
    saveOk := fun _ => true }

/-- A configuration with an injected, never-raising callback and no valid
keys. -/
def cfgC6 : ScanCfg :=
  { startLine := 0, endLine := none, hasCallback := true,
    cbRaises := fun _ => false, derives := fun _ => false,
    deriveAddr := fun _ => none, checkBal := fun _ => (none, "unknown"),
    saveOk := fun _ => true }

/-! ## The result sink (`init_output_file` / `save_result_realtime`,
lines 409-534)

The file system is an association list from path to file content; a file
content is a list of output lines.  `open(path, 'w')` creates or
truncates, `open(path, 'a')` appends — and, as in Python, creates a
missing file (with no header).  I/O failures are injected through
explicit environment flags; timestamps are oracle strings. -/
/-- A line of an output file: the fixed CSV header (lines 481, 494, 520)
or one appended record line (line 527).  A record line is structurally
distinct from the header line (its last field is a provider name, never
the literal `API Used`). -/
inductive FileLine where
  | header
  | record (private_key address : String) (balance : ℚ)
      (timestamp api_used : String)
deriving DecidableEq, Repr

/-- The modelled file system. -/
abbrev FS := List (String × List FileLine)

/-- `open(p, 'w')` followed by writing `c`: create or truncate. -/
def fsWrite (fs : FS) (p : String) (c : List FileLine) : FS :=
  (p, c) :: fs.filter (fun e => !(e.1 == p))

/-- `open(p, 'a')` followed by writing one line: append, creating the
file (without header) when it does not exist. -/
def fsAppend (fs : FS) (p : String) (l : FileLine) : FS :=
  match List.lookup p fs with
  | some c => fsWrite fs p (c ++ [l])
  | none => fsWrite fs p [l]

/-- Byte length of one output line as written by the source (the fields,
four commas, one newline).  The decimal rendering length of the balance
(a Python float) is modelled from its numerator and denominator; only the
size comparison's monotonicity matters to the claims. -/
def FileLine.byteLen : FileLine → ℕ
  | .header => 53
  | .record k a b ts api =>
      k.length + a.length + (toString b.num).length +
        (toString b.den).length + ts.length + api.length + 5

/-- Total byte size of a file (`os.path.getsize`). -/
def fileSize (c : List FileLine) : ℕ := (c.map FileLine.byteLen).sum

/-- Sink-related attributes of `BTCKeyChecker` (`__init__`, lines 70-76:
`output_file_template`, `output_file`, `current_file_index`,
`max_file_size_bytes = 10000 * 1024 * 1024`). -/
structure SinkSt where
  output_file_template : String
  output_file : String
  current_file_index : ℕ
  max_file_size_bytes : ℕ
deriving DecidableEq, Repr

/-- Position of the last occurrence of `c`. -/
def lastIdxOf (c : Char) : List Char → Option ℕ
  | [] => none
  | x :: xs =>
    match lastIdxOf c xs with
    | some i => some (i + 1)
    | none => if x == c then some 0 else none

/-- `os.path.splitext`: split off the extension at the last dot, when
that dot lies inside the basename and a non-dot character precedes it in
the basename (CPython's rule). -/
def splitext (p : String) : String × String :=
  let cs := p.data
  let sepIdx : ℕ := match lastIdxOf '/' cs with
    | some i => i + 1
    | none => 0
  match lastIdxOf '.' cs with
  | none => (p, "")
  | some d =>
    if sepIdx ≤ d ∧
        ((cs.drop sepIdx).take (d - sepIdx)).any (fun x => !(x == '.')) then
      (⟨cs.take d⟩, ⟨cs.drop d⟩)
    else (p, "")

/-- `os.path.dirname`. -/
def dirname (p : String) : String :=
  match lastIdxOf '/' p.data with
  | some i => ⟨p.data.take i⟩
  | none => ""

/-- Python `f"{n:02d}"`. -/
def pad2 (n : ℕ) : String :=
  if n < 10 then "0" ++ toString n else toString n

/-- `get_new_output_filename` (lines 409-426): split the *template* name,
bump `current_file_index`, insert `_NN` before the extension.  Returns
the new filename and the state with the bumped index. -/
def get_new_output_filename (st : SinkSt) : String × SinkSt :=
  let be := splitext st.output_file_template
  let idx := st.current_file_index + 1
  (be.1 ++ "_" ++ pad2 idx ++ be.2,
   { st with current_file_index := idx })

/-- `check_file_size` (lines 428-451): `False` when the current output
file does not exist, otherwise whether its size reached
`max_file_size_bytes`.  (The function's own exception handler returns
`False`; `getsize` on an existing modelled file cannot fail, so that
handler is dead code in the model.) -/
def check_file_size (st : SinkSt) (fs : FS) : Bool :=
  match List.lookup st.output_file fs with
  | none => false
  | some c => st.max_file_size_bytes ≤ fileSize c

/-- Failure injection for one `init_output_file` call: does
`os.makedirs` raise (when attempted), does the primary `open(..., 'w')`
raise (when attempted), does the fallback `open(..., 'w')` raise; `ts`
is `int(time.time())` rendered as a string. -/
structure InitEnv where
  mkdirFails : Bool
  writeFails : Bool
  fallbackFails : Bool
  ts : String
deriving DecidableEq, Repr

/-- `init_output_file` (lines 453-499): ensure the directory, roll over
when the existing file is too large, write the header only when the file
does not exist; on any primary failure switch to the fixed-scheme
fallback `found_balances_<time>.txt` in the current working directory
and try once more; report `False` only when the fallback write fails
too.  Every failure is caught — the function is total and never raises.
Returns `(ok, state, file system, paths written via 'w')`. -/
def init_output_file (env : InitEnv) (st : SinkSt) (fs : FS) :
    Bool × SinkSt × FS × List String :=
  let fbName := "found_balances_" ++ env.ts ++ ".txt"
  let fallback := fun (st0 : SinkSt) =>
    let st' := { st0 with output_file := fbName }
    if env.fallbackFails then (false, st', fs, ([] : List String))
    else (true, st', fsWrite fs fbName [FileLine.header], [fbName])
  if (dirname st.output_file ≠ "") ∧ env.mkdirFails = true then fallback st
  else
    let st1 := if check_file_size st fs then
        (let r := get_new_output_filename st
         { r.2 with output_file := r.1 })
      else st
    if (List.lookup st1.output_file fs).isSome then (true, st1, fs, [])
    else if env.writeFails then fallback st1
    else (true, st1, fsWrite fs st1.output_file [FileLine.header],
          [st1.output_file])

/-- Failure injection for one `save_result_realtime` call: does the
rollover header write raise, does the append raise; `ts` is the
`time.strftime` timestamp. -/
structure SaveEnv where
  rollWriteFails : Bool
  appendFails : Bool
  ts : String
deriving DecidableEq, Repr

/-- `save_result_realtime` (lines 501-534): roll over first when the
current file reached the size limit (note: `self.output_file` is
switched *before* the new file is opened, so a failing rollover write
leaves the sink pointing at a never-created file), then append one
record line.  The single `try` catches everything and reports `False`
— the function is total and never raises.  Returns
`(ok, state, file system, paths written via 'w')`. -/
def save_result_realtime (env : SaveEnv) (st : SinkSt) (fs : FS)
    (private_key address : String) (balance : ℚ) (api_used : String) :
    Bool × SinkSt × FS × List String :=
  let l := FileLine.record private_key address balance env.ts api_used
  if check_file_size st fs then
    let r := get_new_output_filename st
    let st' := { r.2 with output_file := r.1 }
    if env.rollWriteFails then (false, st', fs, [])
    else
      let fs1 := fsWrite fs st'.output_file [FileLine.header]
      if env.appendFails then (false, st', fs1, [st'.output_file])
      else (true, st', fsAppend fs1 st'.output_file l, [st'.output_file])
  else
    if env.appendFails then (false, st, fs, [])
    else (true, st, fsAppend fs st.output_file l, [])

/-- One sink operation of a run. -/
inductive SinkOp where
  | init (env : InitEnv)
  | save (env : SaveEnv) (private_key address : String) (balance : ℚ)
      (api_used : String)

/-- Run a sequence of sink operations, accumulating every path that was
written via `open(..., 'w')` (the header-writing path). -/
def runSink : SinkSt → FS → List SinkOp → SinkSt × FS × List String
  | st, fs, [] => (st, fs, [])
  | st, fs, op :: ops =>
    let r := match op with
      | .init env => (init_output_file env st fs).2
      | .save env k a b api => (save_result_realtime env st fs k a b api).2
    let t := runSink r.1 r.2.1 ops
    (t.1, t.2.1, r.2.2 ++ t.2.2)

/-- The invariant of C7: every path written via the header-writing path
holds a file whose first line is the header and which contains the
header exactly once. -/
def goodSink (fs : FS) (wps : List String) : Prop :=
  ∀ p ∈ wps, ∃ c, List.lookup p fs = some c ∧
    c.head? = some FileLine.header ∧ c.count FileLine.header = 1

/-- The sink state at the start of a run on template `out.txt`
(`__init__`, lines 70-76). -/
def sinkSt0 : SinkSt :=
  { output_file_template := "out.txt", output_file := "out.txt",
    current_file_index := 0, max_file_size_bytes := 10485760000 }

/-- An init whose primary write and fallback write both fail, followed by
a save whose append succeeds. -/
def opsC7 : List SinkOp :=
  [.init ⟨false, true, true, "0"⟩,
   .save ⟨false, false, "t"⟩ "k" "addr" 1 "blockchain"]

/-- The condition under which the primary section of `init_output_file`
raises: the directory-creation step raises, or the target file (after a
possible size rollover) does not exist and the primary header write
raises. -/
def init_primary_fails (env : InitEnv) (st : SinkSt) (fs : FS) : Prop :=
  ((dirname st.output_file ≠ "") ∧ env.mkdirFails = true) ∨
  (¬((dirname st.output_file ≠ "") ∧ env.mkdirFails = true) ∧
   (List.lookup (if check_file_size st fs then (get_new_output_filename st).1
      else st.output_file) fs) = none ∧
   env.writeFails = true)

/-- An environment in which the primary header write raises and the
fallback write succeeds. -/
def initEnvC8 : InitEnv := ⟨false, true, false, "7"⟩

/-- A save environment in which the append raises. -/
def saveEnvC9 : SaveEnv := ⟨false, true, "t"⟩

/-! ## Theorems -/

theorem apiNames_length : apiNames.length = 12 := rfl

theorem check_balance_rotate_queried (o : ProvResult) (c : ℕ) :
    (check_balance_rotate o c).1.1 = apiNames.getD c "" := by
  cases o <;> rfl

theorem check_balance_rotate_next (o : ProvResult) (c : ℕ) :
    (check_balance_rotate o c).2 = (c + 1) % 12 := by
  cases o <;> rfl

/-- The queried-provider trace of a rotate-mode run is the registration
order read off cyclically from the starting cursor. -/
theorem rotate_run_trace (os : List ProvResult) (c : ℕ) (hc : c < 12) :
    (rotate_run c os).1.map Prod.fst =
      (List.range os.length).map (fun k => apiNames.getD ((c + k) % 12) "") := by
  induction os generalizing c with
  | nil => rfl
  | cons o os ih =>
    have hnext : (c + 1) % 12 < 12 := Nat.mod_lt _ (by norm_num)
    simp only [rotate_run, List.map_cons, check_balance_rotate_queried,
      check_balance_rotate_next, List.length_cons, List.range_succ_eq_map,
      List.map_map, ih _ hnext]
    congr 1
    · rw [Nat.add_zero, Nat.mod_eq_of_lt hc]
    · refine List.map_congr_left fun k _ => ?_
      have h2 : ((c + 1) % 12 + k) % 12 = (c + (k + 1)) % 12 := by omega
      simp [Function.comp, h2]

/-- Every rotate-mode call advances the cursor by one modulo the provider
count, so after `n` calls the cursor sits at `(c + n) % 12`. -/
theorem rotate_run_cursor (os : List ProvResult) (c : ℕ) (hc : c < 12) :
    (rotate_run c os).2 = (c + os.length) % 12 := by
  induction os generalizing c with
  | nil => simpa [rotate_run] using (Nat.mod_eq_of_lt hc).symm
  | cons o os ih =>
    have hnext : (c + 1) % 12 < 12 := Nat.mod_lt _ (by norm_num)
    simp only [rotate_run, check_balance_rotate_next, List.length_cons,
      ih _ hnext]
    omega

/-- Closed form for how many of the first `N` calls land on provider
index `i`, when starting from cursor `c`. -/
theorem rotate_hits_formula (N c i : ℕ) (hc : c < 12) (hi : i < 12) :
    (List.range N).countP (fun k => (c + k) % 12 == i) =
      (N + 11 - (i + 12 - c) % 12) / 12 := by
  induction N with
  | zero => simp; omega
  | succ N ih =>
    rw [List.range_succ, List.countP_append, ih]
    by_cases h : (c + N) % 12 = i
    · have hb : ((c + N) % 12 == i) = true := by simp [h]
      simp only [List.countP_cons, List.countP_nil, hb]
      simp only [if_true]
      omega
    · have hb : ((c + N) % 12 == i) = false := by simp [h]
      simp only [List.countP_cons, List.countP_nil, hb, Bool.false_eq_true,
        if_false]
      omega

/-- The twelve registered provider names are pairwise distinct. -/
theorem apiNames_getD_inj : ∀ a < 12, ∀ b < 12,
    apiNames.getD a "" = apiNames.getD b "" → a = b := by decide

/-- C2: in rotate mode, over any `N` consecutive `check_balance` calls
with `N` greater than the provider count, the sequence of providers
queried is the registration order repeated cyclically from the starting
cursor, each provider is used exactly `⌊N/12⌋` or `⌈N/12⌉` times, and
every call advances the cursor by one modulo the provider count — also
when the call's provider raises or reports absent (the outcomes `os` are
arbitrary and never affect the trace or the cursor). -/
theorem check_balance_rotate_spec (c : ℕ) (os : List ProvResult)
    (hc : c < 12) (hN : 12 < os.length) :
    ((rotate_run c os).1.map Prod.fst =
      (List.range os.length).map (fun k => apiNames.getD ((c + k) % 12) "")) ∧
    (∀ k ≤ os.length, (rotate_run c (os.take k)).2 = (c + k) % 12) ∧
    (∀ i < 12,
      ((rotate_run c os).1.map Prod.fst).count (apiNames.getD i "") =
        os.length / 12 ∨
      ((rotate_run c os).1.map Prod.fst).count (apiNames.getD i "") =
        (os.length + 11) / 12) := by
  refine ⟨rotate_run_trace os c hc, fun k hk => ?_, fun i hi => ?_⟩
  · rw [rotate_run_cursor _ c hc, List.length_take,
      Nat.min_eq_left hk]
  · rw [rotate_run_trace os c hc]
    have hcount : ((List.range os.length).map
        (fun k => apiNames.getD ((c + k) % 12) "")).count (apiNames.getD i "") =
        (List.range os.length).countP (fun k => (c + k) % 12 == i) := by
      rw [List.count, List.countP_map]
      refine List.countP_congr fun k _ => ?_
      simp only [Function.comp]
      constructor
      · intro h
        have h' := apiNames_getD_inj _ (Nat.mod_lt _ (by norm_num)) _ hi
          (by simpa using h)
        simpa using h'
      · intro h
        have h' : (c + k) % 12 = i := by simpa using h
        simp [h']
    rw [hcount, rotate_hits_formula _ _ _ hc hi]
    have hr : (i + 12 - c) % 12 < 12 := Nat.mod_lt _ (by norm_num)
    omega

theorem check_balance_rotate_spec_witness :
    ((rotate_run 3 rotateWitnessOutcomes).1.map Prod.fst =
      (List.range rotateWitnessOutcomes.length).map
        (fun k => apiNames.getD ((3 + k) % 12) "")) ∧
    (∀ k ≤ rotateWitnessOutcomes.length,
      (rotate_run 3 (rotateWitnessOutcomes.take k)).2 = (3 + k) % 12) ∧
    (∀ i < 12,
      ((rotate_run 3 rotateWitnessOutcomes).1.map Prod.fst).count
          (apiNames.getD i "") = rotateWitnessOutcomes.length / 12 ∨
      ((rotate_run 3 rotateWitnessOutcomes).1.map Prod.fst).count
          (apiNames.getD i "") = (rotateWitnessOutcomes.length + 11) / 12) :=
  check_balance_rotate_spec 3 rotateWitnessOutcomes (by norm_num) (by decide)

/-- C1: in auto mode, `check_balance` invokes the registered providers in
registration order and returns the first non-absent balance together with
the name of the provider that produced it, invoking no provider after the
first non-absent result; if every provider raises or reports absent it
returns `(none, "unknown")` (and, being a total function of the provider
outcomes, it never raises). -/
theorem check_balance_auto_spec
    (pre post : List (String × ProvResult)) (name : String) (b : ℚ)
    (hpre : ∀ p ∈ pre, p.2.isHit = false) :
    check_balance_auto (pre ++ (name, .value b) :: post) =
      ((some b, name), pre.map Prod.fst ++ [name]) ∧
    ∀ qs : List (String × ProvResult), (∀ q ∈ qs, q.2.isHit = false) →
      check_balance_auto qs = ((none, "unknown"), qs.map Prod.fst) := by
  constructor
  · induction pre with
    | nil => rfl
    | cons p pre ih =>
      have hp : p.2.isHit = false := hpre p (List.mem_cons_self _ _)
      have hrest : ∀ q ∈ pre, q.2.isHit = false :=
        fun q hq => hpre q (List.mem_cons_of_mem _ hq)
      obtain ⟨n, r⟩ := p
      cases r with
      | raises => simp only [List.cons_append, check_balance_auto,
          List.append_eq, ih hrest, List.map_cons]
      | absent => simp only [List.cons_append, check_balance_auto,
          List.append_eq, ih hrest, List.map_cons]
      | value b' => simp [ProvResult.isHit] at hp
  · intro qs hqs
    induction qs with
    | nil => rfl
    | cons q qs ih =>
      have hq : q.2.isHit = false := hqs q (List.mem_cons_self _ _)
      have hrest : ∀ q' ∈ qs, q'.2.isHit = false :=
        fun q' hq' => hqs q' (List.mem_cons_of_mem _ hq')
      obtain ⟨n, r⟩ := q
      cases r with
      | raises => simp only [check_balance_auto, ih hrest, List.map_cons]
      | absent => simp only [check_balance_auto, ih hrest, List.map_cons]
      | value b' => simp [ProvResult.isHit] at hq

/-- Witness for C1 at a concrete provider configuration: the first two
providers fail / report absent, the third returns 3/2 BTC; and a
configuration where everybody misses returns `(none, "unknown")`. -/
theorem check_balance_auto_spec_witness :
    check_balance_auto
      [("blockchain", .raises), ("blockcypher", .absent),
       ("blockstream", .value (3/2)), ("mempool", .value 1)] =
      ((some (3/2), "blockstream"),
       ["blockchain", "blockcypher", "blockstream"]) ∧
    check_balance_auto [("blockchain", .raises), ("blockcypher", .absent)] =
      ((none, "unknown"), ["blockchain", "blockcypher"]) := by
  have h := check_balance_auto_spec
    [("blockchain", .raises), ("blockcypher", .absent)]
    [("mempool", .value 1)] "blockstream" (3/2) (by decide)
  exact ⟨h.1, h.2 _ (by decide)⟩

theorem wifMatchAt_sound {cs m rest'} (h : wifMatchAt cs = some (m, rest')) :
    matchesWifPattern m = true ∧ cs = m ++ rest' := by
  match cs with
  | [] => simp [wifMatchAt] at h
  | c :: rest =>
    simp only [wifMatchAt] at h
    by_cases h5 : isWifStart c = true
    · rw [if_pos h5] at h
      by_cases h51 : ((rest.take 51).length == 51 && (rest.take 51).all isBase58) = true
      · rw [if_pos h51] at h
        obtain ⟨rfl, rfl⟩ := Prod.mk.injEq .. ▸ Option.some.injEq .. ▸ h
        refine ⟨?_, by simp⟩
        simp only [matchesWifPattern, h5, Bool.true_and]
        simp only [Bool.and_eq_true] at h51
        have hlen : (List.take 51 rest).length = 51 := by simpa using h51.1
        simp only [List.length_take] at hlen
        simp [h51.2, List.length_take]
        omega
      · rw [if_neg h51] at h
        by_cases h50 : ((rest.take 50).length == 50 && (rest.take 50).all isBase58) = true
        · rw [if_pos h50] at h
          obtain ⟨rfl, rfl⟩ := Prod.mk.injEq .. ▸ Option.some.injEq .. ▸ h
          refine ⟨?_, by simp⟩
          simp only [matchesWifPattern, h5, Bool.true_and]
          simp only [Bool.and_eq_true] at h50
          have hlen : (List.take 50 rest).length = 50 := by simpa using h50.1
          simp only [List.length_take] at hlen
          simp [h50.2, List.length_take]
          omega
        · rw [if_neg h50] at h
          exact absurd h (by simp)
    · rw [if_neg h5] at h
      exact absurd h (by simp)

theorem hexMatchAt_sound {cs m rest'} (h : hexMatchAt cs = some (m, rest')) :
    matchesHexPattern m = true ∧ cs = m ++ rest' := by
  match cs with
  | [] => simp [hexMatchAt] at h
  | c :: rest =>
    simp only [hexMatchAt] at h
    by_cases hc : (isHexChar c && (rest.take 63).length == 63 &&
        (rest.take 63).all isHexChar) = true
    · rw [if_pos hc] at h
      obtain ⟨rfl, rfl⟩ := Prod.mk.injEq .. ▸ Option.some.injEq .. ▸ h
      refine ⟨?_, by simp⟩
      simp only [Bool.and_eq_true] at hc
      simp only [matchesHexPattern, List.length_cons, List.all_cons]
      have h63 : (rest.take 63).length = 63 := by simpa using hc.1.2
      simp [hc.1.1, hc.2, h63]
    · rw [if_neg hc] at h
      exact absurd h (by simp)

/-- Every string the findall scan emits matches the pattern (as certified
by `matchAt`) and occurs contiguously in the scanned text. -/
theorem scanRe_sound {matchAt : List Char → Option (List Char × List Char)}
    {P : List Char → Bool}
    (hma : ∀ cs m rest', matchAt cs = some (m, rest') →
      P m = true ∧ cs = m ++ rest') :
    ∀ fuel cs m, m ∈ scanRe matchAt fuel cs →
      P m = true ∧ ∃ pre post, cs = pre ++ m ++ post := by
  intro fuel
  induction fuel with
  | zero => intro cs m h; simp [scanRe] at h
  | succ fuel ih =>
    intro cs m h
    match cs with
    | [] => simp [scanRe] at h
    | c :: rest =>
      simp only [scanRe] at h
      cases hm : matchAt (c :: rest) with
      | none =>
        rw [hm] at h
        obtain ⟨hpat, pre, post, heq⟩ := ih rest m h
        exact ⟨hpat, c :: pre, post, by rw [heq]; rfl⟩
      | some p =>
        obtain ⟨mm, rest'⟩ := p
        rw [hm] at h
        rcases List.mem_cons.mp h with rfl | hmem
        · obtain ⟨hpat, heq⟩ := hma _ _ _ hm
          exact ⟨hpat, [], rest', by simpa using heq⟩
        · obtain ⟨hpat, pre, post, heq⟩ := ih rest' m hmem
          obtain ⟨_, hceq⟩ := hma _ _ _ hm
          exact ⟨hpat, mm ++ pre, post, by rw [hceq, heq]; simp⟩

/-- C3 (amended): the candidate keys tried by
`extract_and_validate_private_key` are the non-overlapping, leftmost,
greedy `re.findall` matches of the WIF pattern — each a contiguous
substring of the line matching the pattern, tried in order of appearance
— and the function returns the first of them whose derivation succeeds;
if none succeeds, likewise for the hex-pattern `findall` matches; if none,
the stripped whole line when it derives; otherwise `(False, "")`.  (The
original claim, quantifying over *all* pattern-matching substrings, fails:
see `extract_and_validate_private_key_cex`.) -/
theorem extract_and_validate_private_key_spec
    (derives : List Char → Bool) (line : List Char) :
    (∀ m ∈ findall_wif line,
      matchesWifPattern m = true ∧ ∃ pre post, line = pre ++ m ++ post) ∧
    (∀ m ∈ findall_hex line,
      matchesHexPattern m = true ∧ ∃ pre post, line = pre ++ m ++ post) ∧
    (∀ m, (findall_wif line).find? derives = some m →
      extract_and_validate_private_key derives line = (true, m) ∧
      derives m = true) ∧
    ((findall_wif line).find? derives = none →
      ∀ m, (findall_hex line).find? derives = some m →
      extract_and_validate_private_key derives line = (true, m) ∧
      derives m = true) ∧
    ((findall_wif line).find? derives = none →
      (findall_hex line).find? derives = none →
      extract_and_validate_private_key derives line =
        (if derives (pyStrip line) = true then (true, pyStrip line)
         else (false, []))) := by
  refine ⟨fun m hm => scanRe_sound (fun _ _ _ h => wifMatchAt_sound h) _ _ m hm,
    fun m hm => scanRe_sound (fun _ _ _ h => hexMatchAt_sound h) _ _ m hm,
    fun m hm => ?_, fun hw m hm => ?_, fun hw hh => ?_⟩
  · exact ⟨by simp [extract_and_validate_private_key, hm],
      List.find?_some hm⟩
  · exact ⟨by simp [extract_and_validate_private_key, hw, hm],
      List.find?_some hm⟩
  · by_cases hd : derives (pyStrip line) = true
    · simp [extract_and_validate_private_key, hw, hh, hd]
    · simp [extract_and_validate_private_key, hw, hh, hd]

/-- Counterexample to C3 as stated: `wifKeyEx` is a WIF-pattern substring
of the line (in fact the first and only one whose derivation succeeds),
yet `extract_and_validate_private_key` reports "no key found", because
`re.findall`'s non-overlapping greedy matching consumed it inside a
longer failing candidate. -/
theorem extract_and_validate_private_key_cex :
    matchesWifPattern wifKeyEx = true ∧
    lineEx = ['K'] ++ wifKeyEx ++ [] ∧
    derivesEx wifKeyEx = true ∧
    extract_and_validate_private_key derivesEx lineEx = (false, []) :=
  ⟨by decide, rfl, by decide, by decide⟩

/-- Witness for C3 (amended) on a line that is exactly a deriving WIF
candidate: the extractor returns it. -/
theorem extract_and_validate_private_key_spec_witness :
    extract_and_validate_private_key derivesEx wifKeyEx = (true, wifKeyEx) ∧
    derivesEx wifKeyEx = true :=
  (extract_and_validate_private_key_spec derivesEx wifKeyEx).2.2.1
    wifKeyEx (by decide)

/-- A key that the extractor reports as valid has a succeeding
derivation (it was validated by `privkey_to_pubkey` on the way out). -/
theorem extract_true_derives (d : List Char → Bool) (line key : List Char)
    (h : extract_and_validate_private_key d line = (true, key)) :
    d key = true := by
  simp only [extract_and_validate_private_key] at h
  split at h
  next m heq =>
    obtain ⟨rfl⟩ : m = key := by simpa using h
    exact List.find?_some heq
  next hw =>
    split at h
    next m heq =>
      obtain ⟨rfl⟩ : m = key := by simpa using h
      exact List.find?_some heq
    next hh =>
      by_cases hd : d (pyStrip line) = true
      · rw [if_pos hd] at h
        obtain ⟨rfl⟩ : pyStrip line = key := by simpa using h
        exact hd
      · rw [if_neg hd] at h
        simp at h

/-- A loop never completes more iterations than it has lines. -/
theorem scanLoop_done_le (cfg : ScanCfg) (total : ℕ) :
    ∀ (ls : List (List Char)) (i : ℕ) (st : LoopSt),
      (scanLoop cfg total ls i st).2.2.2 ≤ ls.length := by
  intro ls
  induction ls with
  | nil => intro i st; simp [scanLoop]
  | cons line rest ih =>
    intro i st
    simp only [scanLoop]
    cases h : processLineStep cfg total i line st with
    | ok st' evs =>
      simpa using Nat.succ_le_succ (ih (i + 1) st')
    | abort st' evs => simp

/-- Under a never-raising progress callback and a derivation library that
succeeds on every extractor-validated key, the post-progress part of a
loop iteration never aborts. -/
theorem processKeyBody_not_abort (cfg : ScanCfg) (total i : ℕ)
    (pk : List Char) (st1 : LoopSt) (evs1 : List ScanEv)
    (hcb : ∀ k, cfg.cbRaises k = false)
    (hda : ∀ s, cfg.derives s = true → (cfg.deriveAddr s).isSome = true) :
    (processKeyBody cfg total i pk st1 evs1).isAbort = false := by
  simp only [processKeyBody]
  split
  · rfl
  next key hex =>
    have hkey : cfg.derives key = true := extract_true_derives _ _ _ hex
    have := hda key hkey
    cases hd : cfg.deriveAddr key with
    | none => rw [hd] at this; simp at this
    | some addr =>
      simp only [hd]
      split
      · rfl
      · split
        · simp only [hcb, Bool.false_eq_true, if_false]
          split <;> rfl
        · rfl

/-- Under the same hypotheses, a whole loop iteration never aborts. -/
theorem processLineStep_not_abort (cfg : ScanCfg) (total i : ℕ)
    (line : List Char) (st : LoopSt)
    (hcb : ∀ k, cfg.cbRaises k = false)
    (hda : ∀ s, cfg.derives s = true → (cfg.deriveAddr s).isSome = true) :
    (processLineStep cfg total i line st).isAbort = false := by
  simp only [processLineStep]
  split
  · rfl
  · split
    next hraise => simp [hcb] at hraise
    · split
      · exact processKeyBody_not_abort cfg total i _ _ _ hcb hda
      · exact processKeyBody_not_abort cfg total i _ _ _ hcb hda

/-- Under the same hypotheses the loop runs to the end of its input. -/
theorem scanLoop_no_abort (cfg : ScanCfg) (total : ℕ)
    (hcb : ∀ k, cfg.cbRaises k = false)
    (hda : ∀ s, cfg.derives s = true → (cfg.deriveAddr s).isSome = true) :
    ∀ (ls : List (List Char)) (i : ℕ) (st : LoopSt),
      (scanLoop cfg total ls i st).2.2.1 = false ∧
      (scanLoop cfg total ls i st).2.2.2 = ls.length := by
  intro ls
  induction ls with
  | nil => intro i st; simp [scanLoop]
  | cons line rest ih =>
    intro i st
    have habort := processLineStep_not_abort cfg total i line st hcb hda
    simp only [scanLoop]
    cases h : processLineStep cfg total i line st with
    | ok st' evs =>
      have := ih (i + 1) st'
      simpa using this
    | abort st' evs =>
      rw [h] at habort
      simp [StepOut.isAbort] at habort

/-- C4 (amended): exceptions from extraction, from provider calls and
from persistence are contained per key (`extract_and_validate_private_key`,
`check_balance` and `save_result_realtime` catch internally — they are
total in the model), and a missing input file returns the empty result
set; but the containment of the *whole* loop body holds only when the
injected progress callback never raises and the derivation library
succeeds on every extractor-validated key — under those hypotheses the
run never aborts and every line of the configured range is processed.
(An exception from the callback reaches the single outer `try` and ends
the scan early: see `process_keys_cex`.) -/
theorem process_keys_exception_containment (cfg : ScanCfg)
    (lines : List (List Char))
    (hcb : ∀ k, cfg.cbRaises k = false)
    (hda : ∀ s, cfg.derives s = true → (cfg.deriveAddr s).isSome = true) :
    (process_keys cfg (some lines)).aborted = false ∧
    (process_keys cfg (some lines)).done =
      ((lines.take (cfg.endLine.getD lines.length)).drop cfg.startLine).length ∧
    process_keys cfg none = ⟨[], [], false, 0⟩ := by
  have h := scanLoop_no_abort cfg
    ((lines.take (cfg.endLine.getD lines.length)).drop cfg.startLine).length
    hcb hda
    ((lines.take (cfg.endLine.getD lines.length)).drop cfg.startLine)
    0 ⟨[], 0, 0, 0⟩
  exact ⟨h.1, h.2, rfl⟩

/-- Counterexample to C4 as stated: `process_keys` has a single outer
`try` and no per-line handler, so when the injected progress callback
raises (here: at its first invocation, on line 10 of an 11-line range)
the scan stops — only 9 iterations complete and the remaining lines are
never processed (the outer handler swallows the exception and returns
the partial results). -/
theorem process_keys_cex :
    (process_keys cfgC4 (some linesC4)).aborted = true ∧
    (process_keys cfgC4 (some linesC4)).done = 9 ∧
    linesC4.length = 11 := by decide

/-- Witness for C4 (amended) on a concrete two-line run. -/
theorem process_keys_exception_containment_witness :
    (process_keys cfgC5 (some [['a'], ['b']])).aborted = false ∧
    (process_keys cfgC5 (some [['a'], ['b']])).done =
      (([['a'], ['b']].take (cfgC5.endLine.getD [['a'], ['b']].length)).drop
        cfgC5.startLine).length ∧
    process_keys cfgC5 none = ⟨[], [], false, 0⟩ :=
  process_keys_exception_containment cfgC5 [['a'], ['b']]
    (fun _ => rfl) (fun s h => by simp [cfgC5] at h)

/-- C10: `process_keys` is total in the configured line bounds: the lines
considered are the slice `lines[start_line:end_line]` (computed with the
clamping `take`/`drop` semantics of a Python slice), the loop never
completes more iterations than that slice has lines, and a `start_line`
at or beyond the end of file — or not below `end_line` — yields the
empty outcome (no results, no events, no abort), rather than an
exception. -/
theorem process_keys_range_spec (cfg : ScanCfg) (lines : List (List Char)) :
    (process_keys cfg (some lines)).done ≤
      ((lines.take (cfg.endLine.getD lines.length)).drop cfg.startLine).length ∧
    (lines.length ≤ cfg.startLine ∨
        cfg.endLine.getD lines.length ≤ cfg.startLine →
      process_keys cfg (some lines) = ⟨[], [], false, 0⟩) := by
  constructor
  · exact scanLoop_done_le cfg _ _ 0 ⟨[], 0, 0, 0⟩
  · intro hdeg
    have hlen : ((lines.take (cfg.endLine.getD lines.length)).drop
        cfg.startLine).length = 0 := by
      rw [List.length_drop, List.length_take]
      omega
    have hnil := List.eq_nil_of_length_eq_zero hlen
    simp only [process_keys, hnil]
    rfl

/-- Witness for C10: a one-line file scanned from line 5 yields the empty
outcome. -/
theorem process_keys_range_spec_witness :
    (process_keys cfgC10 (some [['a']])).done ≤
      (([['a']].take (cfgC10.endLine.getD [['a']].length)).drop
        cfgC10.startLine).length ∧
    process_keys cfgC10 (some [['a']]) = ⟨[], [], false, 0⟩ :=
  ⟨(process_keys_range_spec cfgC10 [['a']]).1,
   (process_keys_range_spec cfgC10 [['a']]).2 (by left; decide)⟩

/-- In the post-progress body, a non-aborting iteration sleeps iff the
extractor validated a key and the balance check returned a result. -/
theorem processKeyBody_sleep_iff (cfg : ScanCfg) (total i : ℕ)
    (pk : List Char) (st1 st' : LoopSt) (evs1 evs : List ScanEv)
    (hevs1 : ScanEv.slept ∉ evs1)
    (h : processKeyBody cfg total i pk st1 evs1 = .ok st' evs) :
    ScanEv.slept ∈ evs ↔
      (extract_and_validate_private_key cfg.derives pk).1 = true ∧
      (cfg.checkBal st1.balIdx).1.isSome = true := by
  simp only [processKeyBody] at h
  split at h
  next a hex =>
    injection h with h1 h2
    subst h2
    refine iff_of_false hevs1 ?_
    rintro ⟨h2, -⟩
    rw [hex] at h2
    simp at h2
  next key hex =>
    split at h
    · exact absurd h (by simp)
    next addr hd =>
      split at h
      next hbal =>
        injection h with h1 h2
        subst h2
        refine iff_of_false hevs1 ?_
        rintro ⟨-, h3⟩
        rw [hbal] at h3
        simp at h3
      next b hbal =>
        have hrhs : (extract_and_validate_private_key cfg.derives pk).1 = true ∧
            (cfg.checkBal st1.balIdx).1.isSome = true :=
          ⟨by rw [hex], by simp [hbal]⟩
        refine iff_of_true ?_ hrhs
        revert h
        split
        · split
          · split
            · intro h
              exact absurd h (by simp)
            · intro h
              injection h with h1 h2
              subst h2
              simp
          · intro h
            injection h with h1 h2
            subst h2
            simp
        · intro h
          injection h with h1 h2
          subst h2
          simp

/-- C5 (amended): a non-aborting loop iteration sleeps the configured
delay if and only if the line is non-blank / non-comment, the extractor
validated a key, and the balance check returned a result (zero or
positive balance alike).  In particular an extraction miss or an absent
balance result `continue`s *past* the sleep, contrary to the claim's
"win-or-skip alike" (see `process_keys_sleep_cex`). -/
theorem process_keys_sleep_iff (cfg : ScanCfg) (total i : ℕ)
    (line : List Char) (st st' : LoopSt) (evs : List ScanEv)
    (h : processLineStep cfg total i line st = .ok st' evs) :
    ScanEv.slept ∈ evs ↔
      ((pyStrip line).isEmpty || ((pyStrip line).head? == some '#')) = false ∧
      (extract_and_validate_private_key cfg.derives (pyStrip line)).1 = true ∧
      (cfg.checkBal st.balIdx).1.isSome = true := by
  simp only [processLineStep] at h
  split at h
  next hskip =>
    injection h with h1 h2
    subst h2
    simp [hskip]
  next hskip =>
    rw [Bool.not_eq_true] at hskip
    split at h
    · exact absurd h (by simp)
    · split at h
      · have hiff := processKeyBody_sleep_iff cfg total i (pyStrip line)
          _ st' _ evs (by simp) h
        rw [hiff]
        simp [hskip]
      · have hiff := processKeyBody_sleep_iff cfg total i (pyStrip line)
          _ st' _ evs (by simp) h
        rw [hiff]
        simp [hskip]

/-- Counterexample to C5 as stated: a non-blank, non-comment line whose
extraction misses is fully processed (the run completes, one iteration
done) yet no sleep ever happens — the `continue` on line 583 skips the
delay, likewise the `continue` on line 599 for an absent balance. -/
theorem process_keys_sleep_cex :
    (process_keys cfgC5 (some [['n', 'o']])).events.count ScanEv.slept = 0 ∧
    (process_keys cfgC5 (some [['n', 'o']])).done = 1 ∧
    (process_keys cfgC5 (some [['n', 'o']])).aborted = false ∧
    ((pyStrip ['n', 'o']).isEmpty || ((pyStrip ['n', 'o']).head? == some '#'))
      = false := by decide

/-- Witness for C5 (amended): a hit iteration does sleep, and the iff
certifies the three conditions at this input. -/
theorem process_keys_sleep_iff_witness :
    ScanEv.slept ∈ [ScanEv.saved true, ScanEv.slept] ↔
      ((pyStrip ['5']).isEmpty || ((pyStrip ['5']).head? == some '#')) = false ∧
      (extract_and_validate_private_key cfgW5.derives (pyStrip ['5'])).1 = true ∧
      (cfgW5.checkBal (0 : ℕ)).1.isSome = true :=
  process_keys_sleep_iff cfgW5 1 0 ['5'] ⟨[], 0, 0, 0⟩
    ⟨[⟨['5'], ['5'], 1, "blockchain"⟩], 0, 1, 1⟩
    [ScanEv.saved true, ScanEv.slept] (by decide)

/-- Event accounting of the post-progress body: it adds no periodic
progress-callback event, and adds exactly one found-key callback event
iff a key was validated, the balance came back positive, and a callback
is injected. -/
theorem processKeyBody_events (cfg : ScanCfg) (total i : ℕ)
    (pk : List Char) (st1 st' : LoopSt) (evs1 evs : List ScanEv)
    (h : processKeyBody cfg total i pk st1 evs1 = .ok st' evs) :
    evs.countP (fun e => ScanEv.isProgress e) =
      evs1.countP (fun e => ScanEv.isProgress e) ∧
    evs.countP (fun e => ScanEv.isHitCb e) =
      evs1.countP (fun e => ScanEv.isHitCb e) +
      (if (extract_and_validate_private_key cfg.derives pk).1 = true ∧
          cfg.hasCallback = true ∧
          0 < (cfg.checkBal st1.balIdx).1.getD 0
       then 1 else 0) := by
  simp only [processKeyBody] at h
  split at h
  next a hex =>
    injection h with h1 h2
    subst h2
    simp [hex]
  next key hex =>
    split at h
    · exact absurd h (by simp)
    next addr hd =>
      split at h
      next hbal =>
        injection h with h1 h2
        subst h2
        simp [hbal]
      next b hbal =>
        revert h
        split
        next hpos =>
          split
          next hcb =>
            split
            · intro h
              exact absurd h (by simp)
            · intro h
              injection h with h1 h2
              subst h2
              simp [hex, hcb, hbal, hpos, List.countP_append, List.countP_cons,
                ScanEv.isProgress, ScanEv.isHitCb]
          next hcb =>
            intro h
            injection h with h1 h2
            subst h2
            have hcb' : cfg.hasCallback = false := by
              revert hcb
              cases cfg.hasCallback <;> simp
            simp [hex, hcb', hbal, List.countP_append, List.countP_cons,
              ScanEv.isProgress, ScanEv.isHitCb]
        next hpos =>
          intro h
          injection h with h1 h2
          subst h2
          simp [hex, hbal, List.countP_append, List.countP_cons,
            ScanEv.isProgress, ScanEv.isHitCb]
          exact fun _ => le_of_not_lt hpos

/-- C6 (amended): in a non-aborting iteration, the periodic progress
callback fires exactly when an injected callback exists, the line is
non-blank / non-comment, and the 1-based position of the *line* in the
slice (blank and comment lines included in the count) is a multiple of
10 or equals the slice length; the found-key callback fires exactly on a
validated key with positive balance.  A blank or comment line at a
multiple-of-10 position — or at the end of the range — silently
suppresses the periodic callback (see `process_keys_callback_cex`), so
the original "at minimum once per 10 processed keys and on the final
key" guarantee fails. -/
theorem process_keys_callback_iff (cfg : ScanCfg) (total i : ℕ)
    (line : List Char) (st st' : LoopSt) (evs : List ScanEv)
    (h : processLineStep cfg total i line st = .ok st' evs) :
    evs.countP (fun e => ScanEv.isProgress e) =
      (if ((pyStrip line).isEmpty || ((pyStrip line).head? == some '#')) = false ∧
          cfg.hasCallback = true ∧ ((i + 1) % 10 = 0 ∨ i + 1 = total)
       then 1 else 0) ∧
    evs.countP (fun e => ScanEv.isHitCb e) =
      (if ((pyStrip line).isEmpty || ((pyStrip line).head? == some '#')) = false ∧
          cfg.hasCallback = true ∧
          (extract_and_validate_private_key cfg.derives (pyStrip line)).1 = true ∧
          0 < (cfg.checkBal st.balIdx).1.getD 0
       then 1 else 0) := by
  simp only [processLineStep] at h
  split at h
  next hskip =>
    injection h with h1 h2
    subst h2
    simp [hskip]
  next hskip =>
    rw [Bool.not_eq_true] at hskip
    split at h
    · exact absurd h (by simp)
    · split at h
      next htr =>
        have htr' : cfg.hasCallback = true ∧ ((i + 1) % 10 = 0 ∨ i + 1 = total) := by
          simp only [Bool.and_eq_true, Bool.or_eq_true, beq_iff_eq] at htr
          exact ⟨htr.2, htr.1⟩
        obtain ⟨hcount1, hcount2⟩ := processKeyBody_events cfg total i
          (pyStrip line) _ st' _ evs h
        constructor
        · rw [hcount1]
          simp [hskip, htr'.1, htr'.2, ScanEv.isProgress]
        · rw [hcount2]
          simp [hskip, htr'.1, ScanEv.isHitCb]
      next htr =>
        have htr' : ¬(cfg.hasCallback = true ∧
            ((i + 1) % 10 = 0 ∨ i + 1 = total)) := by
          intro ⟨h1, h2⟩
          apply htr
          simp only [Bool.and_eq_true, Bool.or_eq_true, beq_iff_eq]
          exact ⟨h2, h1⟩
        obtain ⟨hcount1, hcount2⟩ := processKeyBody_events cfg total i
          (pyStrip line) _ st' _ evs h
        constructor
        · rw [hcount1]
          simp only [List.countP_nil]
          split
          next hcnd => exact absurd ⟨hcnd.2.1, hcnd.2.2⟩ htr'
          next => rfl
        · rw [hcount2]
          simp only [List.countP_nil, Nat.zero_add]
          refine if_congr ?_ rfl rfl
          constructor
          · rintro ⟨hex, hcb, hb⟩
            exact ⟨hskip, hcb, hex, hb⟩
          · rintro ⟨-, hcb, hex, hb⟩
            exact ⟨hex, hcb, hb⟩

/-- Counterexample to C6 as stated: a two-line range whose final line is
blank.  One key is processed (the first and final key of the range), the
run completes, yet the injected progress callback is never invoked —
neither per-10 nor on the final key — because the callback condition
tests the raw line position and is skipped for blank lines. -/
theorem process_keys_callback_cex :
    (process_keys cfgC6 (some [['k'], []])).events.countP
      (fun e => ScanEv.isProgress e) = 0 ∧
    (process_keys cfgC6 (some [['k'], []])).aborted = false ∧
    (process_keys cfgC6 (some [['k'], []])).done = 2 ∧
    cfgC6.hasCallback = true ∧
    ((pyStrip ['k']).isEmpty || ((pyStrip ['k']).head? == some '#')) = false := by
  decide

/-- Witness for C6 (amended): on a one-line slice the periodic callback
fires (position 1 = slice length) and no hit callback fires. -/
theorem process_keys_callback_iff_witness :
    ([ScanEv.progressCb 1 1 0] : List ScanEv).countP
      (fun e => ScanEv.isProgress e) =
      (if ((pyStrip ['k']).isEmpty || ((pyStrip ['k']).head? == some '#')) = false ∧
          cfgC6.hasCallback = true ∧ ((0 + 1) % 10 = 0 ∨ 0 + 1 = 1)
       then 1 else 0) ∧
    ([ScanEv.progressCb 1 1 0] : List ScanEv).countP
      (fun e => ScanEv.isHitCb e) =
      (if ((pyStrip ['k']).isEmpty || ((pyStrip ['k']).head? == some '#')) = false ∧
          cfgC6.hasCallback = true ∧
          (extract_and_validate_private_key cfgC6.derives (pyStrip ['k'])).1 = true ∧
          0 < (cfgC6.checkBal (0 : ℕ)).1.getD 0
       then 1 else 0) :=
  process_keys_callback_iff cfgC6 1 0 ['k'] ⟨[], 0, 0, 0⟩ ⟨[], 1, 0, 0⟩
    [ScanEv.progressCb 1 1 0] (by decide)

theorem lookup_filter_ne (fs : FS) (p q : String) (h : ¬q = p) :
    List.lookup q (fs.filter (fun e => !(e.1 == p))) = List.lookup q fs := by
  induction fs with
  | nil => rfl
  | cons e fs ih =>
    obtain ⟨k, v⟩ := e
    by_cases hk : k = p
    · subst hk
      have hqk : (q == k) = false := by simp [h]
      simp [List.filter_cons, List.lookup, hqk, ih]
    · have : (!(k == p)) = true := by simp [hk]
      simp [List.filter_cons, this, List.lookup, ih]

theorem fsWrite_lookup_self (fs : FS) (p : String) (c : List FileLine) :
    List.lookup p (fsWrite fs p c) = some c := by
  simp [fsWrite, List.lookup]

theorem fsWrite_lookup_ne (fs : FS) (p q : String) (c : List FileLine)
    (h : ¬q = p) :
    List.lookup q (fsWrite fs p c) = List.lookup q fs := by
  have hqp : (q == p) = false := by simp [h]
  simp only [fsWrite, List.lookup, hqp, Bool.false_eq_true, if_false]
  exact lookup_filter_ne fs p q h

theorem fsAppend_lookup_self (fs : FS) (p : String) (l : FileLine) :
    List.lookup p (fsAppend fs p l) =
      some ((List.lookup p fs).getD [] ++ [l]) := by
  simp only [fsAppend]
  cases h : List.lookup p fs with
  | some c => simp [fsWrite_lookup_self]
  | none => simp [fsWrite_lookup_self]

theorem fsAppend_lookup_ne (fs : FS) (p q : String) (l : FileLine)
    (h : ¬q = p) :
    List.lookup q (fsAppend fs p l) = List.lookup q fs := by
  simp only [fsAppend]
  cases List.lookup p fs <;> simp [fsWrite_lookup_ne _ _ _ _ h]

/-- Writing `[header]` via `'w'` to any path preserves the header
invariant and adds that path to the well-formed set. -/
theorem goodSink_fsWrite_header (fs : FS) (wps : List String) (p : String)
    (h : goodSink fs wps) :
    goodSink (fsWrite fs p [FileLine.header]) (wps ++ [p]) := by
  intro q hq
  by_cases hqp : q = p
  · subst hqp
    exact ⟨[FileLine.header], fsWrite_lookup_self fs q _, rfl, by decide⟩
  · rcases List.mem_append.mp hq with hq | hq
    · obtain ⟨c, hc, hh, hcount⟩ := h q hq
      exact ⟨c, by rw [fsWrite_lookup_ne fs p q _ hqp]; exact hc, hh, hcount⟩
    · simp at hq
      exact absurd hq hqp

/-- Appending one record line preserves the header invariant. -/
theorem goodSink_fsAppend_record (fs : FS) (wps : List String) (p : String)
    (k a : String) (b : ℚ) (ts api : String) (h : goodSink fs wps) :
    goodSink (fsAppend fs p (FileLine.record k a b ts api)) wps := by
  intro q hq
  obtain ⟨c, hc, hh, hcount⟩ := h q hq
  by_cases hqp : q = p
  · subst hqp
    refine ⟨c ++ [FileLine.record k a b ts api], ?_, ?_, ?_⟩
    · rw [fsAppend_lookup_self, hc]
      rfl
    · cases c with
      | nil => simp at hh
      | cons x xs => simpa using hh
    · rw [List.count_append, hcount]
      have h0 : List.count FileLine.header [FileLine.record k a b ts api] = 0 :=
        List.count_eq_zero.mpr (by simp)
      rw [h0]
  · exact ⟨c, by rw [fsAppend_lookup_ne fs p q _ hqp]; exact hc, hh, hcount⟩

theorem init_output_file_preserves (env : InitEnv) (st : SinkSt) (fs : FS)
    (wps : List String) (h : goodSink fs wps) :
    goodSink (init_output_file env st fs).2.2.1
      (wps ++ (init_output_file env st fs).2.2.2) := by
  simp only [init_output_file]
  split
  · split
    · simpa using h
    · exact goodSink_fsWrite_header fs wps _ h
  · split
    · split
      · simpa using h
      · split
        · split
          · simpa using h
          · exact goodSink_fsWrite_header fs wps _ h
        · exact goodSink_fsWrite_header fs wps _ h
    · split
      · simpa using h
      · split
        · split
          · simpa using h
          · exact goodSink_fsWrite_header fs wps _ h
        · exact goodSink_fsWrite_header fs wps _ h

theorem save_result_realtime_preserves (env : SaveEnv) (st : SinkSt)
    (fs : FS) (wps : List String) (k a : String) (b : ℚ) (api : String)
    (h : goodSink fs wps) :
    goodSink (save_result_realtime env st fs k a b api).2.2.1
      (wps ++ (save_result_realtime env st fs k a b api).2.2.2) := by
  simp only [save_result_realtime]
  split
  · split
    · simpa using h
    · split
      · exact goodSink_fsWrite_header fs wps _ h
      · exact goodSink_fsAppend_record _ _ _ _ _ _ _ _
          (goodSink_fsWrite_header fs wps _ h)
  · split
    · simpa using h
    · simpa using goodSink_fsAppend_record _ _ _ _ _ _ _ _ h

/-- C7 (amended): every output file written through the header-writing
`open(..., 'w')` path — at initialization and at each size-triggered
rollover — contains the header exactly once, as its first line, and no
append ever duplicates a header onto such a file: this holds as an
invariant of arbitrary sink-operation sequences with arbitrary injected
failures.  The original claim's stronger "every physical output file the
sink creates" fails, because after a failed create a subsequent append
(Python `'a'` mode) creates the file with no header at all — see
`init_output_file_header_cex`. -/
theorem sink_header_invariant (ops : List SinkOp) :
    ∀ (st : SinkSt) (fs : FS) (wps : List String), goodSink fs wps →
      goodSink (runSink st fs ops).2.1 (wps ++ (runSink st fs ops).2.2) := by
  induction ops with
  | nil =>
    intro st fs wps h
    simpa [runSink] using h
  | cons op ops ih =>
    intro st fs wps h
    cases op with
    | init env =>
      have h2 := ih (init_output_file env st fs).2.1
        (init_output_file env st fs).2.2.1
        (wps ++ (init_output_file env st fs).2.2.2)
        (init_output_file_preserves env st fs wps h)
      simpa [runSink, List.append_assoc] using h2
    | save env k a b api =>
      have h2 := ih (save_result_realtime env st fs k a b api).2.1
        (save_result_realtime env st fs k a b api).2.2.1
        (wps ++ (save_result_realtime env st fs k a b api).2.2.2)
        (save_result_realtime_preserves env st fs wps k a b api h)
      simpa [runSink, List.append_assoc] using h2

/-- Counterexample to C7 as stated: after a doubly-failed
`init_output_file` (which returns `False` but leaves `self.output_file`
pointing at the fallback name), a successful `save_result_realtime`
append *creates* the fallback file — a physical output file created by
the sink that contains the header zero times, not exactly once. -/
theorem init_output_file_header_cex :
    List.lookup "found_balances_0.txt" ([] : FS) = none ∧
    List.lookup "found_balances_0.txt" (runSink sinkSt0 [] opsC7).2.1 =
      some [FileLine.record "k" "addr" 1 "t" "blockchain"] ∧
    ([FileLine.record "k" "addr" 1 "t" "blockchain"]).count FileLine.header
      = 0 := by
  decide

/-- Witness for C7 (amended): a fresh, failure-free init run satisfies
the header invariant. -/
theorem sink_header_invariant_witness :
    goodSink (runSink sinkSt0 [] [.init ⟨false, false, false, "0"⟩]).2.1
      ([] ++ (runSink sinkSt0 [] [.init ⟨false, false, false, "0"⟩]).2.2) :=
  sink_header_invariant [.init ⟨false, false, false, "0"⟩] sinkSt0 [] []
    (fun p hp => absurd hp (List.not_mem_nil p))

/-- C8: `init_output_file` is a total function of the injected failures
(it never raises); when creating or writing the primary output location
fails it switches `self.output_file` to the fallback
`found_balances_<time>.txt` — a bare filename, so a file in the current
working directory; it returns `False` exactly when the primary attempt
failed *and* the fallback write failed too; a successful fallback leaves
a file holding exactly the header line. -/
theorem init_output_file_spec (env : InitEnv) (st : SinkSt) (fs : FS) :
    ((init_output_file env st fs).1 = false ↔
      init_primary_fails env st fs ∧ env.fallbackFails = true) ∧
    (init_primary_fails env st fs →
      (init_output_file env st fs).2.1.output_file =
        "found_balances_" ++ env.ts ++ ".txt") ∧
    (init_primary_fails env st fs → env.fallbackFails = false →
      (init_output_file env st fs).1 = true ∧
      List.lookup ("found_balances_" ++ env.ts ++ ".txt")
        (init_output_file env st fs).2.2.1 = some [FileLine.header]) ∧
    ((∀ ch ∈ env.ts.data, ch ≠ '/') →
      ∀ ch ∈ ("found_balances_" ++ env.ts ++ ".txt").data, ch ≠ '/') := by
  have hchars : (∀ ch ∈ env.ts.data, ch ≠ '/') →
      ∀ ch ∈ ("found_balances_" ++ env.ts ++ ".txt").data, ch ≠ '/' := by
    intro hts ch hch
    have hch' : ch ∈ ("found_balances_".data ++ env.ts.data) ++ ".txt".data :=
      hch
    rcases List.mem_append.mp hch' with hm | hm
    · rcases List.mem_append.mp hm with hm | hm
      · intro hEq
        subst hEq
        revert hm
        decide
      · exact hts ch hm
    · intro hEq
      subst hEq
      revert hm
      decide
  by_cases hmk : ((dirname st.output_file ≠ "") ∧ env.mkdirFails = true)
  · by_cases hf : env.fallbackFails = true
    · refine ⟨?_, fun _ => ?_, fun _ hf' => ?_, hchars⟩
      · simp [init_output_file, init_primary_fails, hmk, hf]
      · simp [init_output_file, hmk, hf]
      · rw [hf'] at hf
        cases hf
    · have hf0 : env.fallbackFails = false := by
        revert hf
        cases env.fallbackFails <;> simp
      refine ⟨?_, fun _ => ?_, fun _ _ => ⟨?_, ?_⟩, hchars⟩
      · simp [init_output_file, init_primary_fails, hmk, hf0]
      · simp [init_output_file, hmk, hf0]
      · simp [init_output_file, hmk, hf0]
      · simp [init_output_file, hmk, hf0, fsWrite_lookup_self]
  · by_cases hcf : check_file_size st fs = true
    · by_cases hex : List.lookup (get_new_output_filename st).1 fs = none
      · by_cases hwf : env.writeFails = true
        · by_cases hf : env.fallbackFails = true
          · refine ⟨?_, fun _ => ?_, fun _ hf' => ?_, hchars⟩
            · simp [init_output_file, init_primary_fails, hmk, hcf, hex,
                hwf, hf]
            · simp [init_output_file, hmk, hcf, hex, hwf, hf]
            · rw [hf'] at hf
              cases hf
          · have hf0 : env.fallbackFails = false := by
              revert hf
              cases env.fallbackFails <;> simp
            refine ⟨?_, fun _ => ?_, fun _ _ => ⟨?_, ?_⟩, hchars⟩
            · simp [init_output_file, init_primary_fails, hmk, hcf, hex,
                hwf, hf0]
            · simp [init_output_file, hmk, hcf, hex, hwf, hf0]
            · simp [init_output_file, hmk, hcf, hex, hwf, hf0]
            · simp [init_output_file, hmk, hcf, hex, hwf, hf0,
                fsWrite_lookup_self]
        · have hwf0 : env.writeFails = false := by
            revert hwf
            cases env.writeFails <;> simp
          have hnpf : ¬init_primary_fails env st fs := by
            simp [init_primary_fails, hmk, hcf, hwf0]
          refine ⟨?_, fun hpf => absurd hpf hnpf,
            fun hpf _ => absurd hpf hnpf, hchars⟩
          simp [init_output_file, init_primary_fails, hmk, hcf, hex, hwf0]
      · have hex' : (List.lookup (get_new_output_filename st).1 fs).isSome
            = true := by
          rw [Option.isSome_iff_ne_none]
          exact hex
        have hnpf : ¬init_primary_fails env st fs := by
          simp [init_primary_fails, hmk, hcf, hex]
        refine ⟨?_, fun hpf => absurd hpf hnpf,
          fun hpf _ => absurd hpf hnpf, hchars⟩
        simp [init_output_file, init_primary_fails, hmk, hcf, hex', hex]
    · by_cases hex : List.lookup st.output_file fs = none
      · by_cases hwf : env.writeFails = true
        · by_cases hf : env.fallbackFails = true
          · refine ⟨?_, fun _ => ?_, fun _ hf' => ?_, hchars⟩
            · simp [init_output_file, init_primary_fails, hmk, hcf, hex,
                hwf, hf]
            · simp [init_output_file, hmk, hcf, hex, hwf, hf]
            · rw [hf'] at hf
              cases hf
          · have hf0 : env.fallbackFails = false := by
              revert hf
              cases env.fallbackFails <;> simp
            refine ⟨?_, fun _ => ?_, fun _ _ => ⟨?_, ?_⟩, hchars⟩
            · simp [init_output_file, init_primary_fails, hmk, hcf, hex,
                hwf, hf0]
            · simp [init_output_file, hmk, hcf, hex, hwf, hf0]
            · simp [init_output_file, hmk, hcf, hex, hwf, hf0]
            · simp [init_output_file, hmk, hcf, hex, hwf, hf0,
                fsWrite_lookup_self]
        · have hwf0 : env.writeFails = false := by
            revert hwf
            cases env.writeFails <;> simp
          have hnpf : ¬init_primary_fails env st fs := by
            simp [init_primary_fails, hmk, hcf, hwf0]
          refine ⟨?_, fun hpf => absurd hpf hnpf,
            fun hpf _ => absurd hpf hnpf, hchars⟩
          simp [init_output_file, init_primary_fails, hmk, hcf, hex, hwf0]
      · have hex' : (List.lookup st.output_file fs).isSome = true := by
          rw [Option.isSome_iff_ne_none]
          exact hex
        have hnpf : ¬init_primary_fails env st fs := by
          simp [init_primary_fails, hmk, hcf, hex]
        refine ⟨?_, fun hpf => absurd hpf hnpf,
          fun hpf _ => absurd hpf hnpf, hchars⟩
        simp [init_output_file, init_primary_fails, hmk, hcf, hex', hex]

/-- Witness for C8 on a fresh file system: the fallback file is used and
created with exactly the header. -/
theorem init_output_file_spec_witness :
    (init_output_file initEnvC8 sinkSt0 []).2.1.output_file =
      "found_balances_" ++ initEnvC8.ts ++ ".txt" ∧
    (init_output_file initEnvC8 sinkSt0 []).1 = true ∧
    List.lookup ("found_balances_" ++ initEnvC8.ts ++ ".txt")
      (init_output_file initEnvC8 sinkSt0 []).2.2.1 =
      some [FileLine.header] := by
  have h := init_output_file_spec initEnvC8 sinkSt0 []
  have hpf : init_primary_fails initEnvC8 sinkSt0 [] := by
    unfold init_primary_fails
    decide
  exact ⟨h.2.1 hpf, (h.2.2.1 hpf rfl).1, (h.2.2.1 hpf rfl).2⟩

theorem processKeyBody_saveOk_indep (cfg : ScanCfg) (o' : ℕ → Bool)
    (total i : ℕ) (pk : List Char) (st1 : LoopSt) (evs1 : List ScanEv) :
    (processKeyBody { cfg with saveOk := o' } total i pk st1 evs1).st =
      (processKeyBody cfg total i pk st1 evs1).st ∧
    (processKeyBody { cfg with saveOk := o' } total i pk st1 evs1).isAbort =
      (processKeyBody cfg total i pk st1 evs1).isAbort ∧
    (processKeyBody { cfg with saveOk := o' } total i pk st1 evs1).evs.map
        ScanEv.scrubSave =
      (processKeyBody cfg total i pk st1 evs1).evs.map ScanEv.scrubSave := by
  cases hex : extract_and_validate_private_key cfg.derives pk with
  | mk valid key =>
    cases valid with
    | false => simp [processKeyBody, hex, StepOut.st, StepOut.evs,
        StepOut.isAbort]
    | true =>
      cases hd : cfg.deriveAddr key with
      | none => simp [processKeyBody, hex, hd, StepOut.st, StepOut.evs,
          StepOut.isAbort]
      | some addr =>
        cases hbal : (cfg.checkBal st1.balIdx).1 with
        | none => simp [processKeyBody, hex, hd, hbal, StepOut.st,
            StepOut.evs, StepOut.isAbort]
        | some b =>
          by_cases hpos : 0 < b
          · by_cases hcb : cfg.hasCallback = true
            · by_cases hr : cfg.cbRaises st1.cbIdx = true
              · simp [processKeyBody, hex, hd, hbal, hpos, hcb, hr,
                  ScanEv.scrubSave, StepOut.st, StepOut.evs, StepOut.isAbort]
              · simp [processKeyBody, hex, hd, hbal, hpos, hcb, hr,
                  ScanEv.scrubSave, StepOut.st, StepOut.evs, StepOut.isAbort]
            · simp [processKeyBody, hex, hd, hbal, hpos, hcb,
                ScanEv.scrubSave, StepOut.st, StepOut.evs, StepOut.isAbort]
          · simp [processKeyBody, hex, hd, hbal, hpos, StepOut.st,
              StepOut.evs, StepOut.isAbort]

theorem processLineStep_saveOk_indep (cfg : ScanCfg) (o' : ℕ → Bool)
    (total i : ℕ) (line : List Char) (st : LoopSt) :
    (processLineStep { cfg with saveOk := o' } total i line st).st =
      (processLineStep cfg total i line st).st ∧
    (processLineStep { cfg with saveOk := o' } total i line st).isAbort =
      (processLineStep cfg total i line st).isAbort ∧
    (processLineStep { cfg with saveOk := o' } total i line st).evs.map
        ScanEv.scrubSave =
      (processLineStep cfg total i line st).evs.map ScanEv.scrubSave := by
  by_cases h1 : ((pyStrip line).isEmpty ||
      ((pyStrip line).head? == some '#')) = true
  · simp [processLineStep, h1]
  · by_cases h2 : (((i + 1) % 10 == 0 || i + 1 == total) && cfg.hasCallback &&
        cfg.cbRaises st.cbIdx) = true
    · simp [processLineStep, h1, h2]
    · by_cases h3 : (((i + 1) % 10 == 0 || i + 1 == total) &&
          cfg.hasCallback) = true
      · have hr : cfg.cbRaises st.cbIdx = false := by
          simp only [h3, Bool.true_and] at h2
          revert h2
          cases cfg.cbRaises st.cbIdx <;> simp
        simpa [processLineStep, h1, h2, h3, hr] using
          processKeyBody_saveOk_indep cfg o' total i (pyStrip line)
            { st with cbIdx := st.cbIdx + 1 }
            [ScanEv.progressCb (i + 1) total st.results.length]
      · simpa [processLineStep, h1, h2, h3] using
          processKeyBody_saveOk_indep cfg o' total i (pyStrip line) st []

theorem scanLoop_saveOk_indep (cfg : ScanCfg) (o' : ℕ → Bool) (total : ℕ) :
    ∀ (ls : List (List Char)) (i : ℕ) (st : LoopSt),
      (scanLoop { cfg with saveOk := o' } total ls i st).1 =
        (scanLoop cfg total ls i st).1 ∧
      (scanLoop { cfg with saveOk := o' } total ls i st).2.1.map
          ScanEv.scrubSave =
        (scanLoop cfg total ls i st).2.1.map ScanEv.scrubSave ∧
      (scanLoop { cfg with saveOk := o' } total ls i st).2.2 =
        (scanLoop cfg total ls i st).2.2 := by
  intro ls
  induction ls with
  | nil => intro i st; exact ⟨rfl, rfl, rfl⟩
  | cons line rest ih =>
    intro i st
    obtain ⟨hst, hab, hevs⟩ := processLineStep_saveOk_indep cfg o' total i
      line st
    simp only [scanLoop]
    cases h : processLineStep cfg total i line st with
    | ok st2 evs2 =>
      cases h' : processLineStep { cfg with saveOk := o' } total i line st with
      | ok st2' evs2' =>
        rw [h, h'] at hst hevs
        simp only [StepOut.st] at hst
        simp only [StepOut.evs] at hevs
        subst hst
        obtain ⟨ih1, ih2, ih3⟩ := ih (i + 1) st2'
        refine ⟨ih1, ?_, ?_⟩
        · simp only [List.map_append, hevs, ih2]
        · dsimp only
          have ih31 := congrArg Prod.fst ih3
          have ih32 := congrArg Prod.snd ih3
          simp only at ih31 ih32
          rw [ih31, ih32]
      | abort st2' evs2' =>
        rw [h, h'] at hab
        simp [StepOut.isAbort] at hab
    | abort st2 evs2 =>
      cases h' : processLineStep { cfg with saveOk := o' } total i line st with
      | ok st2' evs2' =>
        rw [h, h'] at hab
        simp [StepOut.isAbort] at hab
      | abort st2' evs2' =>
        rw [h, h'] at hst hevs
        simp only [StepOut.st] at hst
        simp only [StepOut.evs] at hevs
        exact ⟨hst, hevs, rfl⟩

/-- On a validated key with positive balance and a non-raising callback,
the iteration records the hit in memory and reports it through the
found-key callback, with the save outcome read from the oracle but never
affecting anything beyond the recorded event. -/
theorem processKeyBody_hit_recorded (cfg : ScanCfg) (total i : ℕ)
    (pk : List Char) (st1 : LoopSt) (evs1 : List ScanEv)
    (key addr : List Char) (b : ℚ)
    (hex : extract_and_validate_private_key cfg.derives pk = (true, key))
    (hd : cfg.deriveAddr key = some addr)
    (hbal : (cfg.checkBal st1.balIdx).1 = some b)
    (hpos : 0 < b)
    (hcb : ∀ k, cfg.cbRaises k = false) :
    (processKeyBody cfg total i pk st1 evs1).isAbort = false ∧
    (processKeyBody cfg total i pk st1 evs1).st.results =
      st1.results ++ [⟨key, addr, b, (cfg.checkBal st1.balIdx).2⟩] ∧
    ScanEv.saved (cfg.saveOk st1.saveIdx) ∈
      (processKeyBody cfg total i pk st1 evs1).evs ∧
    (cfg.hasCallback = true →
      ScanEv.hitCb (i + 1) total (st1.results.length + 1) ∈
        (processKeyBody cfg total i pk st1 evs1).evs) := by
  by_cases hcb' : cfg.hasCallback = true
  · simp [processKeyBody, hex, hd, hbal, hpos, hcb', hcb,
      StepOut.st, StepOut.evs, StepOut.isAbort]
  · simp [processKeyBody, hex, hd, hbal, hpos, hcb',
      StepOut.st, StepOut.evs, StepOut.isAbort]

theorem save_result_realtime_false_iff (env : SaveEnv) (st : SinkSt)
    (fs : FS) (k a : String) (b : ℚ) (api : String) :
    (save_result_realtime env st fs k a b api).1 = false ↔
      ((check_file_size st fs = true ∧ env.rollWriteFails = true) ∨
        env.appendFails = true) := by
  by_cases hcf : check_file_size st fs = true
  · by_cases hr : env.rollWriteFails = true
    · simp [save_result_realtime, hcf, hr]
    · by_cases ha : env.appendFails = true
      · simp [save_result_realtime, hcf, hr, ha]
      · simp [save_result_realtime, hcf, hr, ha]
  · by_cases ha : env.appendFails = true
    · simp [save_result_realtime, hcf, ha]
    · simp [save_result_realtime, hcf, ha]

/-- C9: `save_result_realtime` never raises — it is a total function
reporting failure as a `False` return, exactly on the injected rollover /
append failures; `process_keys` ignores that return value — runs that
differ only in the persistence outcomes have identical results, aborts
and iteration counts, and identical traces up to the recorded save flags;
and a positive-balance record whose persistence fails is still appended
to the in-memory results, still counted, and still reported through the
found-key callback. -/
theorem process_keys_ignores_save_failures :
    (∀ (env : SaveEnv) (st : SinkSt) (fs : FS) (k a : String) (b : ℚ)
        (api : String),
      ((save_result_realtime env st fs k a b api).1 = false ↔
        ((check_file_size st fs = true ∧ env.rollWriteFails = true) ∨
          env.appendFails = true))) ∧
    (∀ (cfg : ScanCfg) (o' : ℕ → Bool)
        (fileLines : Option (List (List Char))),
      (process_keys { cfg with saveOk := o' } fileLines).results =
        (process_keys cfg fileLines).results ∧
      (process_keys { cfg with saveOk := o' } fileLines).events.map
          ScanEv.scrubSave =
        (process_keys cfg fileLines).events.map ScanEv.scrubSave ∧
      (process_keys { cfg with saveOk := o' } fileLines).aborted =
        (process_keys cfg fileLines).aborted ∧
      (process_keys { cfg with saveOk := o' } fileLines).done =
        (process_keys cfg fileLines).done) ∧
    (∀ (cfg : ScanCfg) (total i : ℕ) (pk : List Char) (st1 : LoopSt)
        (evs1 : List ScanEv) (key addr : List Char) (b : ℚ),
      extract_and_validate_private_key cfg.derives pk = (true, key) →
      cfg.deriveAddr key = some addr →
      (cfg.checkBal st1.balIdx).1 = some b →
      0 < b →
      (∀ k, cfg.cbRaises k = false) →
      (processKeyBody cfg total i pk st1 evs1).st.results =
        st1.results ++ [⟨key, addr, b, (cfg.checkBal st1.balIdx).2⟩] ∧
      ScanEv.saved (cfg.saveOk st1.saveIdx) ∈
        (processKeyBody cfg total i pk st1 evs1).evs ∧
      (cfg.hasCallback = true →
        ScanEv.hitCb (i + 1) total (st1.results.length + 1) ∈
          (processKeyBody cfg total i pk st1 evs1).evs)) := by
  refine ⟨save_result_realtime_false_iff, ?_, ?_⟩
  · intro cfg o' fileLines
    cases fileLines with
    | none => exact ⟨rfl, rfl, rfl, rfl⟩
    | some lines =>
      obtain ⟨h1, h2, h3⟩ := scanLoop_saveOk_indep cfg o'
        ((lines.take (cfg.endLine.getD lines.length)).drop
          cfg.startLine).length
        ((lines.take (cfg.endLine.getD lines.length)).drop cfg.startLine)
        0 ⟨[], 0, 0, 0⟩
      exact ⟨by simp only [process_keys]; rw [h1],
        by simp only [process_keys]; rw [h2],
        by simp only [process_keys]; rw [h3],
        by simp only [process_keys]; rw [h3]⟩
  · intro cfg total i pk st1 evs1 key addr b hex hd hbal hpos hcb
    exact (processKeyBody_hit_recorded cfg total i pk st1 evs1 key addr b
      hex hd hbal hpos hcb).2

/-- Witness for C9: the failing append reports `False`; a run with all
saves failing equals the run with all saves succeeding (results, trace
shape, control flow); and the hit of `cfgW5` is recorded and reported
even when its save fails. -/
theorem process_keys_ignores_save_failures_witness :
    ((save_result_realtime saveEnvC9 sinkSt0 [] "k" "a" 1 "api").1 = false ↔
      ((check_file_size sinkSt0 [] = true ∧ saveEnvC9.rollWriteFails = true) ∨
        saveEnvC9.appendFails = true)) ∧
    ((process_keys { cfgW5 with saveOk := fun _ => false }
        (some [['5']])).results =
      (process_keys cfgW5 (some [['5']])).results) ∧
    ((processKeyBody { cfgW5 with saveOk := fun _ => false } 1 0 ['5']
        ⟨[], 0, 0, 0⟩ []).st.results =
      ([] : List FoundRecord) ++
        [⟨['5'], ['5'], 1,
          (({ cfgW5 with saveOk := fun _ => false } : ScanCfg).checkBal
            (0 : ℕ)).2⟩]) := by
  refine ⟨process_keys_ignores_save_failures.1 saveEnvC9 sinkSt0 []
    "k" "a" 1 "api", ?_, ?_⟩
  · exact (process_keys_ignores_save_failures.2.1 cfgW5 (fun _ => false)
      (some [['5']])).1
  · exact (process_keys_ignores_save_failures.2.2
      { cfgW5 with saveOk := fun _ => false } 1 0 ['5'] ⟨[], 0, 0, 0⟩ []
      ['5'] ['5'] 1 (by decide) (by decide) (by decide) (by decide)
      (fun _ => rfl)).1

end BtcChecker
